import Mathlib

set_option maxRecDepth 100000

/-!
Verification of the skill scaffolder (`scripts/init_skill.py`) and skill
validator (`scripts/validate_skill.py`).

Strings are modelled as `List Char` (Python `str`, one entry per code
point).  Python string primitives (`startswith`, `in`, `split`, `strip`,
`lower`, `title`, `replace`, `isalnum`) are embedded below.  The
whitespace class of `str.strip()` is modelled at full Unicode fidelity
and the alphanumeric class of `str.isalnum()` at Latin-1 fidelity (its
doc comment states the scope); case folding (`lower`, `title`) is ASCII,
which covers every character of the fixed templates and error messages.
-/

/-- Python `s.startswith(p)`: `p` is a prefix of `s`. -/
def pyStartsWith : List Char → List Char → Bool
  | _, [] => true
  | [], _ :: _ => false
  | c :: t, p :: ps => c == p && pyStartsWith t ps

/-- Python `sub in s`: `sub` occurs as a contiguous substring of `s`. -/
def pyContains (s sub : List Char) : Bool :=
  match s with
  | [] => pyStartsWith [] sub
  | _ :: t => pyStartsWith s sub || pyContains t sub

/-- Locate the first occurrence of `sep` in the argument: returns the part
before the first occurrence and the part after it, or `none` when `sep`
does not occur.  This is the single step underlying Python `str.split`
with a maxsplit bound. -/
def splitOnceAux (sep : List Char) : List Char → Option (List Char × List Char)
  | [] => if sep.isEmpty then some ([], []) else none
  | c :: t =>
    if pyStartsWith (c :: t) sep then some ([], (c :: t).drop sep.length)
    else
      match splitOnceAux sep t with
      | some (a, b) => some (c :: a, b)
      | none => none

/-- Python `s.split(sep, 2)`: split on the first two occurrences of `sep`,
producing one to three parts. -/
def pySplit2 (sep s : List Char) : List (List Char) :=
  match splitOnceAux sep s with
  | none => [s]
  | some (a, b) =>
    match splitOnceAux sep b with
    | none => [a, b]
    | some (c, d) => [a, c, d]

/-- Python `s.split("\n")` (no maxsplit, one-character separator). -/
def splitLines : List Char → List (List Char)
  | [] => [[]]
  | c :: t =>
    if c == '\n' then [] :: splitLines t
    else
      match splitLines t with
      | [] => [[c]]
      | h :: r => (c :: h) :: r

/-- The whitespace class of Python `str.strip()` / `str.isspace()`, in
full: `U+0009`-`U+000D`, `U+001C`-`U+001F`, space, `U+0085` (NEL),
`U+00A0` (NBSP), `U+1680`, `U+2000`-`U+200A`, `U+2028`, `U+2029`,
`U+202F`, `U+205F` and `U+3000`. -/
def isPyWs (c : Char) : Bool :=
  let n := c.toNat
  (0x09 ≤ n && n ≤ 0x0D) || n == 0x20 || (0x1C ≤ n && n ≤ 0x1F) ||
  n == 0x85 || n == 0xA0 || n == 0x1680 || (0x2000 ≤ n && n ≤ 0x200A) ||
  n == 0x2028 || n == 0x2029 || n == 0x202F || n == 0x205F || n == 0x3000

/-- Quote characters stripped by Python `str.strip('"\x27')`. -/
def isQuoteCh (c : Char) : Bool := c == '"' || c == '\x27'

/-- Python `str.strip(chars)`: remove every leading and every trailing
character satisfying `p`. -/
def stripBy (p : Char → Bool) (l : List Char) : List Char :=
  ((l.dropWhile p).reverse.dropWhile p).reverse

/-- Python `str.strip()` (whitespace on both ends). -/
def pyStrip (l : List Char) : List Char := stripBy isPyWs l

/-- Python `str.strip('"\x27')` as applied to frontmatter values
(validate_skill.py line 36). -/
def stripQuotes (l : List Char) : List Char := stripBy isQuoteCh l

/-- Python `str.lower()` (ASCII case folding). -/
def pyLower (l : List Char) : List Char := l.map Char.toLower

/-- Python `str.replace(a, b)` for one-character `a` and `b`. -/
def pyReplaceChar (a b : Char) (l : List Char) : List Char :=
  l.map fun c => if c == a then b else c

/-- Python `str.title()` at ASCII fidelity: a letter that follows a
non-letter (or starts the string) is uppercased, any other letter is
lowercased, non-letters pass through. -/
def pyTitleAux : Bool → List Char → List Char
  | _, [] => []
  | up, c :: t =>
    if c.isAlpha then (if up then c.toUpper else c.toLower) :: pyTitleAux false t
    else c :: pyTitleAux true t

/-- Python `str.title()`. -/
def pyTitle (l : List Char) : List Char := pyTitleAux true l

/-- The per-character alphanumeric test of Python `str.isalnum()`,
modelled faithfully on the whole Latin-1 range `U+0000`-`U+00FF`: the
ASCII letters and digits plus the Latin-1 alphanumerics
`ª µ º ² ³ ¹ ¼ ½ ¾ À-Ö Ø-ö ø-ÿ` (`×` and `÷` excluded).  Characters
above `U+00FF` are outside the model's faithful scope and mapped to
`false`; no theorem below quantifies over them in a position where this
value matters. -/
def pyIsAlnumChar (c : Char) : Bool :=
  let n := c.toNat
  c.isAlphanum ||
  n == 0xAA || n == 0xB5 || n == 0xBA ||
  n == 0xB2 || n == 0xB3 || n == 0xB9 ||
  n == 0xBC || n == 0xBD || n == 0xBE ||
  (0xC0 ≤ n && n ≤ 0xD6) || (0xD8 ≤ n && n ≤ 0xF6) || (0xF8 ≤ n && n ≤ 0xFF)

/-- Python `str.isalnum()`: nonempty and every character alphanumeric. -/
def pyIsAlnum (l : List Char) : Bool := !l.isEmpty && l.all pyIsAlnumChar

/-- The frontmatter mapping: insertion-ordered key/value pairs with unique
keys, exactly a Python `dict` of strings restricted to the operations the
source uses. -/
abbrev FrontMap := List (List Char × List Char)

/-- Python `d[k] = v` on an insertion-ordered `dict`: overwrite in place
when the key is present, append otherwise. -/
def dictInsert : FrontMap → List Char → List Char → FrontMap
  | [], k, v => [(k, v)]
  | (k0, v0) :: t, k, v =>
    if k0 == k then (k, v) :: t else (k0, v0) :: dictInsert t k v

/-- Python `k in d` / `d[k]` on the frontmatter mapping. -/
def dictFind : FrontMap → List Char → Option (List Char)
  | [], _ => none
  | (k, v) :: t, key => if k == key then some v else dictFind t key

/-- The frontmatter delimiter `---`. -/
def fmSep : List Char := ['-', '-', '-']

/-- The key/value separator `:`. -/
def colonSep : List Char := [':']

/-- One iteration of the frontmatter line loop (validate_skill.py lines
34-36): when the line contains `:`, split on the first occurrence, strip
whitespace from the key, strip whitespace then quote characters from the
value, and store the pair; otherwise leave the mapping unchanged.
`splitOnceAux` succeeds exactly when `:` occurs in the line (see
`contains_colon_iff_splitOnce`). -/
def fmLine (fm : FrontMap) (line : List Char) : FrontMap :=
  match splitOnceAux colonSep line with
  | some (k, v) => dictInsert fm (pyStrip k) (stripQuotes (pyStrip v))
  | none => fm

/-- `parse_frontmatter` (validate_skill.py lines 23-38): if the content
does not start with `---`, or splitting on `---` (maxsplit 2) yields fewer
than three parts, return an empty mapping and the original content;
otherwise fold the line loop over the lines of the stripped middle part
and return the third part as the body. -/
def parse_frontmatter (content : List Char) : FrontMap × List Char :=
  if pyStartsWith content fmSep then
    match pySplit2 fmSep content with
    | [_, fmBlock, body] => ((splitLines (pyStrip fmBlock)).foldl fmLine [], body)
    | _ => ([], content)
  else ([], content)

/-! ### The validator (validate_skill.py lines 41-96)

A skill directory is modelled by the data the validator reads from disk:
the content of `SKILL.md` when it exists, and for each of the three
scanned subdirectories, its direct entries when it exists as a directory
(`none` = missing or not a directory).  Each entry carries its name,
whether it is a regular file (`Path.is_file`), and its text content. -/

/-- One direct entry of a scanned subdirectory. -/
structure FsEntry where
  name : List Char
  isFile : Bool
  content : List Char
deriving DecidableEq

/-- What `validate_skill` reads from a skill directory. -/
structure SkillDir where
  skillMd : Option (List Char)
  scripts : Option (List FsEntry)
  references : Option (List FsEntry)
  assets : Option (List FsEntry)
deriving DecidableEq

/-- Error string of validate_skill.py line 48. -/
def notFoundMsg : List Char := "SKILL.md file not found".data

/-- Error string of validate_skill.py line 56. -/
def missingNameMsg : List Char :=
  "Missing required field \x27name\x27 in frontmatter".data

/-- Error string of validate_skill.py line 58. -/
def invalidNameMsg (n : List Char) : List Char :=
  "Invalid name format: ".data ++ n ++ ". Use lowercase letters, numbers, and hyphens.".data

/-- Error string of validate_skill.py line 61. -/
def missingDescMsg : List Char :=
  "Missing required field \x27description\x27 in frontmatter".data

/-- Error string of validate_skill.py line 65, with the actual length. -/
def descShortMsg (n : Nat) : List Char :=
  "Description too short (".data ++ Nat.toDigits 10 n ++ " chars). Should be at least 50 characters.".data

/-- Error string of validate_skill.py line 67. -/
def descTodoMsg : List Char := "Description contains TODO placeholder".data

/-- Error string of validate_skill.py line 69. -/
def descTriggerMsg : List Char := "Description should explain when to use this skill".data

/-- Error string of validate_skill.py line 73. -/
def bodyShortMsg : List Char := "SKILL.md body is too short. Add detailed instructions.".data

/-- Error string of validate_skill.py line 76. -/
def bodyTodoMsg : List Char := "SKILL.md body contains TODO placeholders".data

/-- Error string of validate_skill.py line 82, for one recommended section. -/
def missingSectionMsg (s : List Char) : List Char :=
  "Missing recommended section: \x27".data ++ s ++ "\x27".data

/-- Error string of validate_skill.py line 94, for one leaking file. -/
def fileTodoMsg (sub fname : List Char) : List Char :=
  "File ".data ++ sub ++ '/' :: (fname ++ " contains TODO placeholders".data)

/-- The literal substring `TODO` searched for by the placeholder checks. -/
def todoChars : List Char := "TODO".data

/-- Model of `re.match(r"^[a-z][a-z0-9-]*$", s)` (validate_skill.py line
57): a lowercase letter followed by lowercase letters, digits and hyphens.
(Python `re.match` with a trailing `$` would also accept a single trailing
newline, but frontmatter values come from splitting on newlines and can
never contain one, so the distinction is vacuous here.) -/
def nameMatches : List Char → Bool
  | [] => false
  | c :: rest =>
    ('a' ≤ c && c ≤ 'z') &&
      rest.all fun d => ('a' ≤ d && d ≤ 'z') || ('0' ≤ d && d ≤ '9') || d == '-'

/-- The `name` checks (validate_skill.py lines 55-58). -/
def nameChecks (fm : FrontMap) : List (List Char) :=
  match dictFind fm "name".data with
  | none => [missingNameMsg]
  | some n => if nameMatches n then [] else [invalidNameMsg n]

/-- The case-insensitive trigger words of validate_skill.py line 68. -/
def triggerWords : List (List Char) := ["when".data, "use".data, "should".data, "for".data]

/-- The `description` checks (validate_skill.py lines 60-69), in source
order: too short, contains TODO, no trigger word. -/
def descChecks (fm : FrontMap) : List (List Char) :=
  match dictFind fm "description".data with
  | none => [missingDescMsg]
  | some desc =>
    (if desc.length < 50 then [descShortMsg desc.length] else []) ++
    (if pyContains desc todoChars then [descTodoMsg] else []) ++
    (if triggerWords.any (fun t => pyContains (pyLower desc) t) then [] else [descTriggerMsg])

/-- The body checks (validate_skill.py lines 72-76). -/
def bodyChecks (body : List Char) : List (List Char) :=
  (if (pyStrip body).length < 100 then [bodyShortMsg] else []) ++
  (if pyContains body todoChars then [bodyTodoMsg] else [])

/-- The recommended section labels (validate_skill.py line 79). -/
def recommendedSections : List (List Char) :=
  ["When to Use".data, "Workflow".data, "Example".data]

/-- The recommended-section checks (validate_skill.py lines 79-82):
case-insensitive substring search of each label over the body. -/
def sectionChecks (body : List Char) : List (List Char) :=
  (recommendedSections.map fun s =>
    if pyContains (pyLower body) (pyLower s) then [] else [missingSectionMsg s]).flatten

/-- The check of one entry of a scanned subdirectory (validate_skill.py
lines 90-94): files not named `.gitkeep` whose content contains `TODO`
produce one error. -/
def entryCheck (sub : List Char) (f : FsEntry) : List (List Char) :=
  if f.name ≠ ".gitkeep".data ∧ f.isFile then
    if pyContains f.content todoChars then [fileTodoMsg sub f.name] else []
  else []

/-- The placeholder-leakage check of one subdirectory (validate_skill.py
lines 85-94): skipped when the subdirectory is missing or not a
directory, otherwise every direct entry is checked. -/
def subdirChecks (sub : List Char) : Option (List FsEntry) → List (List Char)
  | none => []
  | some fs => (fs.map (entryCheck sub)).flatten

/-- The checks performed once `SKILL.md` exists (validate_skill.py lines
51-96), concatenated in source order. -/
def manifestChecks (d : SkillDir) (content : List Char) : List (List Char) :=
  nameChecks (parse_frontmatter content).1 ++
  descChecks (parse_frontmatter content).1 ++
  bodyChecks (parse_frontmatter content).2 ++
  sectionChecks (parse_frontmatter content).2 ++
  subdirChecks "scripts".data d.scripts ++
  subdirChecks "references".data d.references ++
  subdirChecks "assets".data d.assets

/-- `validate_skill` (validate_skill.py lines 41-96): the missing-manifest
case returns its single error immediately; otherwise all checks run and
their errors are collected in order. -/
def validate_skill (d : SkillDir) : List (List Char) :=
  match d.skillMd with
  | none => [notFoundMsg]
  | some content => manifestChecks d content

/-! ### The scaffolder (init_skill.py lines 17-143)

The filesystem is modelled as a list of directory paths plus a list of
file paths with contents; paths are segment lists relative to the output
directory's parent.  `create_skill` is the pure transcription of
init_skill.py lines 100-133: it returns the (possibly unchanged)
filesystem together with the error message of the raised exception, if
any.  In the source both checks precede every `mkdir`/`write_text`, so an
error leaves the filesystem exactly as it was. -/

/-- A filesystem path, as a list of name segments. -/
abbrev FsPath := List (List Char)

/-- A filesystem: directories and text files. -/
structure FS where
  dirs : List FsPath
  files : List (FsPath × List Char)
deriving DecidableEq

/-- Python `Path.exists()`: the path names a node of any type. -/
def fsExists (fs : FS) (p : FsPath) : Bool :=
  fs.dirs.contains p || fs.files.any fun f => f.1 == p

/-- `SKILL_MD_TEMPLATE` of init_skill.py lines 17-60, with the two format
placeholders substituted. -/
def SKILL_MD_TEMPLATE (skill_name skill_title : List Char) : List Char :=
  "---\nname: ".data ++ skill_name ++ "\ndescription: TODO - Add a description of when this skill should be used. Be specific about trigger conditions.\n---\n\n# ".data ++ skill_title ++ "\n\n## Overview\n\nTODO - Describe the purpose and capabilities of this skill.\n\n## When to Use This Skill\n\n- TODO - Trigger condition 1\n- TODO - Trigger condition 2\n- TODO - Trigger condition 3\n\n## Workflow\n\n### Step 1: [Action]\n\nTODO - Instructions for Claude\n\n### Step 2: [Action]\n\nTODO - Instructions for Claude\n\n## Examples\n\n**User Request**: \"TODO - Example prompt\"\n\n**Expected Output**:\n```\nTODO - Show expected output\n```\n\n## Error Handling\n\n- If [error condition], then [action]\n\n## References\n\n- Load `references/example.md` for additional context (delete if not needed)\n".data

/-- `REFERENCE_TEMPLATE` of init_skill.py lines 62-73. -/
def REFERENCE_TEMPLATE : List Char :=
  "# Reference Documentation\n\nTODO - Add reference documentation that Claude should load as needed.\n\nThis file should contain:\n- Detailed specifications\n- API documentation\n- Schema definitions\n- Extended examples\n\nKeep this separate from SKILL.md to avoid loading unnecessary context.\n".data

/-- `SCRIPT_TEMPLATE` of init_skill.py lines 75-97, with the
`script_name` placeholder substituted (the doubled braces of the source
template come out as the literal `\x7bargs.input\x7d`). -/
def SCRIPT_TEMPLATE (script_name : List Char) : List Char :=
  "#!/usr/bin/env python3\n\"\"\"\nTODO - Description of what this script does.\n\nUsage:\n    python ".data ++ script_name ++ ".py <args>\n\"\"\"\n\nimport argparse\n\n\ndef main():\n    parser = argparse.ArgumentParser(description=\"TODO - Script description\")\n    parser.add_argument(\"input\", help=\"TODO - Input description\")\n    args = parser.parse_args()\n\n    # TODO - Implement script logic\n    print(f\"Processing: \x7bargs.input\x7d\")\n\n\nif __name__ == \"__main__\":\n    main()\n".data

/-- `skill_name.replace("-", "").replace("_", "")` (init_skill.py line 104). -/
def stripDashUnderscore (l : List Char) : List Char :=
  (l.filter fun c => c != '-').filter fun c => c != '_'

/-- Error message of init_skill.py line 105. -/
def invalidSkillMsg (n : List Char) : List Char :=
  "Invalid skill name: ".data ++ n ++ ". Use only letters, numbers, and hyphens.".data

/-- Rendering of a path for the f-string of init_skill.py line 110
(segments joined by `/`, as `pathlib` prints a relative path). -/
def renderPath : FsPath → List Char
  | [] => []
  | [s] => s
  | s :: rest => s ++ '/' :: renderPath rest

/-- Error message of init_skill.py line 110. -/
def alreadyExistsMsg (p : FsPath) : List Char :=
  "Skill directory already exists: ".data ++ renderPath p

/-- `create_skill` (init_skill.py lines 100-133).  Checks run in source
order: invalid name first, then target-exists; only after both pass are
the three subdirectories created (with the skill directory itself as
parent) and the four files written. -/
def create_skill (skill_name : List Char) (out : FsPath) (fs : FS) :
    FS × Option (List Char) :=
  if !pyIsAlnum (stripDashUnderscore skill_name) then
    (fs, some (invalidSkillMsg skill_name))
  else
    let skill_path := out ++ [skill_name]
    if fsExists fs skill_path then
      (fs, some (alreadyExistsMsg skill_path))
    else
      let skill_title := pyTitle (pyReplaceChar '_' ' ' (pyReplaceChar '-' ' ' skill_name))
      ({ dirs := fs.dirs ++
           [skill_path, skill_path ++ ["scripts".data],
            skill_path ++ ["references".data], skill_path ++ ["assets".data]],
         files := fs.files ++
           [(skill_path ++ ["SKILL.md".data], SKILL_MD_TEMPLATE skill_name skill_title),
            (skill_path ++ ["references".data, "example.md".data], REFERENCE_TEMPLATE),
            (skill_path ++ ["scripts".data, "example.py".data], SCRIPT_TEMPLATE "example".data),
            (skill_path ++ ["assets".data, ".gitkeep".data], [])] },
       none)

/-- Read a file's content from the modelled filesystem. -/
def fsFile (fs : FS) (p : FsPath) : Option (List Char) :=
  (fs.files.find? fun f => f.1 == p).map Prod.snd

/-- Read a directory's direct entries (`Path.glob("*")`): files and
subdirectories one level below `p`; `none` when `p` is not a directory. -/
def fsSubdir (fs : FS) (p : FsPath) : Option (List FsEntry) :=
  if fs.dirs.contains p then
    some ((fs.files.filterMap fun f =>
             if f.1.dropLast == p then f.1.getLast?.map fun nm => ⟨nm, true, f.2⟩ else none) ++
          (fs.dirs.filterMap fun q =>
             if !q.isEmpty && q.dropLast == p then q.getLast?.map fun nm => ⟨nm, false, []⟩ else none))
  else none

/-- Assemble the validator's view of a skill directory at path `p`. -/
def readSkillDir (fs : FS) (p : FsPath) : SkillDir :=
  { skillMd := fsFile fs (p ++ ["SKILL.md".data]),
    scripts := fsSubdir fs (p ++ ["scripts".data]),
    references := fsSubdir fs (p ++ ["references".data]),
    assets := fsSubdir fs (p ++ ["assets".data]) }

/-- The empty filesystem. -/
def emptyFS : FS := ⟨[], []⟩

/-- The result of scaffolding `my-skill` into an empty output directory. -/
def mySkillCreate : FS × Option (List Char) := create_skill "my-skill".data [] emptyFS

/-- The validator's view of the freshly scaffolded `my-skill` directory. -/
def mySkillDir : SkillDir := readSkillDir mySkillCreate.1 ["my-skill".data]

/-- Serialization of a mapping as one `key: value` line per entry between
two `---` delimiter lines, the round-trip format of the specification's
parser round-trip property. -/
def joinLines : List (List Char) → List Char
  | [] => []
  | [l] => l
  | l :: ls => l ++ '\n' :: joinLines ls

/-- One serialized `key: value` line. -/
def fmEntryLine (e : List Char × List Char) : List Char := e.1 ++ ':' :: ' ' :: e.2

/-- The serialized document: `---`, the lines, `---`, each on its own line. -/
def serializeFM (entries : FrontMap) : List Char :=
  fmSep ++ '\n' :: joinLines (entries.map fmEntryLine) ++ '\n' :: fmSep ++ ['\n']

/-- The literal character class `[A-Za-z0-9_-]`: ASCII alphanumerics
(`Char.isAlphanum` is exactly the ASCII alphanumeric predicate) plus
hyphen and underscore.  Note this is strictly smaller than what the
scaffolder's name rule accepts, since Python `str.isalnum` also accepts
non-ASCII alphanumerics. -/
def allowedChar (c : Char) : Bool := c.isAlphanum || c == '-' || c == '_'

/-- A string with no leading and no trailing Python whitespace (so that
`str.strip()` leaves it unchanged). -/
def noWsEnds (l : List Char) : Prop :=
  l.head?.all (fun c => !isPyWs c) = true ∧ l.getLast?.all (fun c => !isPyWs c) = true

/-- Side conditions on one `key: value` entry under which serialization
followed by `parse_frontmatter` recovers the entry unchanged: the key
contains no separator, neither side contains a newline or an embedded
`---`, both sides survive whitespace stripping, and the value survives
quote stripping.  Empty values are allowed: they serialize as `key: `
and re-parse to the empty value. -/
def entryOk (e : List Char × List Char) : Prop :=
  ':' ∉ e.1 ∧ '\n' ∉ e.1 ∧ '\n' ∉ e.2 ∧
  pyContains e.1 fmSep = false ∧ pyContains e.2 fmSep = false ∧
  noWsEnds e.1 ∧ noWsEnds e.2 ∧
  (e.2).head?.all (fun c => !isQuoteCh c) = true ∧
  (e.2).getLast?.all (fun c => !isQuoteCh c) = true

instance : DecidablePred entryOk := by
  intro e
  unfold entryOk noWsEnds
  infer_instance


/-! ### Helper lemmas about the embedded string primitives -/

theorem pyStartsWith_nil_right (l : List Char) : pyStartsWith l [] = true := by
  cases l <;> rfl

theorem pyContains_cons (c : Char) (t sub : List Char) :
    pyContains (c :: t) sub = (pyStartsWith (c :: t) sub || pyContains t sub) := rfl

/-- Fidelity of `fmLine` to the source's `if ":" in line` guard: the split
on the first `:` succeeds exactly when the line contains a `:`. -/
theorem contains_colon_iff_splitOnce (line : List Char) :
    pyContains line colonSep = (splitOnceAux colonSep line).isSome := by
  induction line with
  | nil => rfl
  | cons c t ih =>
    rw [pyContains_cons]
    by_cases hsw : pyStartsWith (c :: t) colonSep = true
    · simp [splitOnceAux, hsw]
    · rw [Bool.not_eq_true] at hsw
      simp only [splitOnceAux, hsw, Bool.false_or, if_false, ih]
      cases splitOnceAux colonSep t with
      | none => rfl
      | some ab => cases ab with | mk a b => rfl

theorem splitOnce_colon (k r : List Char) (h : ':' ∉ k) :
    splitOnceAux colonSep (k ++ ':' :: r) = some (k, r) := by
  induction k with
  | nil =>
    simp [splitOnceAux, colonSep, pyStartsWith, pyStartsWith_nil_right]
  | cons c k ih =>
    simp only [List.mem_cons, not_or] at h
    have hc : (c == ':') = false := by
      rw [beq_eq_false_iff_ne]
      exact fun e => h.1 e.symm
    have ih2 := ih h.2
    have hsw : pyStartsWith (c :: (k ++ ':' :: r)) colonSep = false := by
      simp [pyStartsWith, colonSep, pyStartsWith_nil_right, hc]
    show splitOnceAux colonSep (c :: (k ++ ':' :: r)) = some (c :: k, r)
    rw [splitOnceAux, if_neg (by simp [hsw]), ih2]

theorem startsWith_fmSep (x : List Char) : pyStartsWith (fmSep ++ x) fmSep = true := by
  simp [fmSep, pyStartsWith, pyStartsWith_nil_right]

theorem splitOnce_fmSep_self (x : List Char) :
    splitOnceAux fmSep (fmSep ++ x) = some ([], x) := by
  have hsw : pyStartsWith ('-' :: ('-' :: '-' :: x)) fmSep = true := startsWith_fmSep x
  show splitOnceAux fmSep ('-' :: ('-' :: '-' :: x)) = some ([], x)
  rw [splitOnceAux, if_pos hsw]
  simp [fmSep]

/-- A `---` cannot start at any position that reaches across a non-dash
character: if `a` itself contains no `---` and `c` is not a dash, then
`a ++ c :: tail` does not start with `---`. -/
theorem startsWith_break (a : List Char) (c : Char) (tail : List Char)
    (h : pyContains a fmSep = false) (hc : (c == '-') = false) :
    pyStartsWith (a ++ c :: tail) fmSep = false := by
  match a with
  | [] => simp [pyStartsWith, fmSep, hc]
  | [x] => simp [pyStartsWith, fmSep, hc]
  | [x, y] => simp [pyStartsWith, fmSep, hc]
  | x :: y :: z :: r =>
    have h' : pyStartsWith (x :: y :: z :: r) fmSep = false := by
      rw [pyContains_cons] at h
      exact (Bool.or_eq_false_iff.mp h).1
    simp only [pyStartsWith, fmSep, pyStartsWith_nil_right, Bool.and_true] at h' ⊢
    simpa using h'

theorem contains_break (a b : List Char) (c : Char)
    (ha : pyContains a fmSep = false) (hb : pyContains b fmSep = false)
    (hc : (c == '-') = false) : pyContains (a ++ c :: b) fmSep = false := by
  induction a with
  | nil =>
    rw [List.nil_append, pyContains_cons]
    have hsw : pyStartsWith (c :: b) fmSep = false := by
      simpa using startsWith_break [] c b rfl hc
    simp [hsw, hb]
  | cons x a ih =>
    have ha' : pyContains a fmSep = false := by
      rw [pyContains_cons] at ha
      exact (Bool.or_eq_false_iff.mp ha).2
    have hsw : pyStartsWith (x :: (a ++ c :: b)) fmSep = false := by
      have := startsWith_break (x :: a) c b ha hc
      simpa using this
    show pyContains (x :: (a ++ c :: b)) fmSep = false
    rw [pyContains_cons]
    simp [hsw, ih ha']

theorem splitOnce_fmSep_after (m b : List Char) (h : pyContains m fmSep = false) :
    splitOnceAux fmSep (m ++ '\n' :: (fmSep ++ b)) = some (m ++ ['\n'], b) := by
  induction m with
  | nil =>
    show splitOnceAux fmSep ('\n' :: (fmSep ++ b)) = some (['\n'], b)
    have hsw : pyStartsWith ('\n' :: (fmSep ++ b)) fmSep = false := by
      simp [pyStartsWith, fmSep]
    rw [splitOnceAux, if_neg (by simp [hsw]), splitOnce_fmSep_self]
  | cons x m ih =>
    have h' : pyContains m fmSep = false := by
      rw [pyContains_cons] at h
      exact (Bool.or_eq_false_iff.mp h).2
    have hsw : pyStartsWith (x :: (m ++ '\n' :: (fmSep ++ b))) fmSep = false := by
      have := startsWith_break (x :: m) '\n' (fmSep ++ b) h (by decide)
      simpa using this
    show splitOnceAux fmSep (x :: (m ++ '\n' :: (fmSep ++ b))) = some (x :: (m ++ ['\n']), b)
    rw [splitOnceAux, if_neg (by simp [hsw]), ih h']

theorem splitLines_no_nl (l : List Char) (h : '\n' ∉ l) : splitLines l = [l] := by
  induction l with
  | nil => rfl
  | cons c t ih =>
    simp only [List.mem_cons, not_or] at h
    have hc : (c == '\n') = false := by
      rw [beq_eq_false_iff_ne]
      exact fun e => h.1 e.symm
    simp [splitLines, hc, ih h.2]

theorem splitLines_append (l x : List Char) (h : '\n' ∉ l) :
    splitLines (l ++ '\n' :: x) = l :: splitLines x := by
  induction l with
  | nil => simp [splitLines]
  | cons c t ih =>
    simp only [List.mem_cons, not_or] at h
    have hc : (c == '\n') = false := by
      rw [beq_eq_false_iff_ne]
      exact fun e => h.1 e.symm
    show splitLines (c :: (t ++ '\n' :: x)) = (c :: t) :: splitLines x
    simp [splitLines, hc, ih h.2]

theorem dropWhile_eq_self_of_head (p : Char → Bool) (l : List Char)
    (h : l.head?.all (fun c => !p c) = true) : l.dropWhile p = l := by
  cases l with
  | nil => rfl
  | cons c t =>
    have hc : p c = false := by simpa using h
    simp [List.dropWhile_cons, hc]

theorem stripBy_eq_self (p : Char → Bool) (l : List Char)
    (h1 : l.head?.all (fun c => !p c) = true)
    (h2 : l.getLast?.all (fun c => !p c) = true) : stripBy p l = l := by
  unfold stripBy
  rw [dropWhile_eq_self_of_head p l h1]
  rw [dropWhile_eq_self_of_head p l.reverse (by rw [List.head?_reverse]; exact h2)]
  exact List.reverse_reverse l

theorem stripBy_cons_of (p : Char → Bool) (c : Char) (l : List Char) (h : p c = true) :
    stripBy p (c :: l) = stripBy p l := by
  unfold stripBy
  simp [List.dropWhile_cons, h]

theorem dropWhile_append_absorb (p : Char → Bool) (a x : List Char) (ha : a.all p = true) :
    (a ++ x).dropWhile p = x.dropWhile p := by
  induction a with
  | nil => rfl
  | cons c t ih =>
    simp only [List.all_cons, Bool.and_eq_true] at ha
    simp [List.dropWhile_cons, ha.1, ih ha.2]

theorem stripBy_wrap (p : Char → Bool) (a : Char) (m suffix : List Char)
    (hpa : p a = true) (hsuf : suffix.all p = true)
    (h1 : m.head?.all (fun c => !p c) = true)
    (h2 : m.getLast?.all (fun c => !p c) = true)
    (hm : m ≠ []) : stripBy p (a :: (m ++ suffix)) = m := by
  unfold stripBy
  rw [List.dropWhile_cons, if_pos hpa]
  have hd : (m ++ suffix).dropWhile p = m ++ suffix := by
    apply dropWhile_eq_self_of_head
    cases m with
    | nil => exact absurd rfl hm
    | cons c t => simpa using h1
  rw [hd, List.reverse_append]
  rw [dropWhile_append_absorb p suffix.reverse m.reverse (by simpa using hsuf)]
  rw [dropWhile_eq_self_of_head p m.reverse (by rw [List.head?_reverse]; exact h2)]
  exact List.reverse_reverse m

theorem getLast?_cons_of_ne_nil (c : Char) (l : List Char) (h : l ≠ []) :
    (c :: l).getLast? = l.getLast? := by
  cases hl : l.getLast? with
  | none => exact absurd (List.getLast?_eq_none_iff.mp hl) h
  | some a =>
    rw [show c :: l = [c] ++ l from rfl, List.getLast?_append, hl]
    rfl

theorem joinLines_ne_nil (L : List (List Char)) (h : ∀ l ∈ L, l ≠ []) (hL : L ≠ []) :
    joinLines L ≠ [] := by
  match L with
  | [] => exact absurd rfl hL
  | [l] => exact h l (by simp)
  | l :: l' :: r =>
    show l ++ '\n' :: joinLines (l' :: r) ≠ []
    simp

theorem joinLines_head_ok (p : Char → Bool) (L : List (List Char))
    (h1 : ∀ l ∈ L, l.head?.all p = true) (h2 : ∀ l ∈ L, l ≠ []) (hL : L ≠ []) :
    (joinLines L).head?.all p = true := by
  induction L with
  | nil => exact absurd rfl hL
  | cons l L ih =>
    cases L with
    | nil => exact h1 l (by simp)
    | cons l' r =>
      show ((l ++ '\n' :: joinLines (l' :: r)).head?.all p) = true
      cases hl : l with
      | nil => exact absurd hl (h2 l (by simp))
      | cons c t =>
        have := h1 l (by simp)
        rw [hl] at this
        simpa using this

theorem joinLines_getLast_ok (p : Char → Bool) (L : List (List Char))
    (h1 : ∀ l ∈ L, l.getLast?.all p = true) (h2 : ∀ l ∈ L, l ≠ []) (hL : L ≠ []) :
    (joinLines L).getLast?.all p = true := by
  induction L with
  | nil => exact absurd rfl hL
  | cons l L ih =>
    cases L with
    | nil => exact h1 l (by simp)
    | cons l' r =>
      have hJ : joinLines (l' :: r) ≠ [] :=
        joinLines_ne_nil _ (fun x hx => h2 x (by simp [hx])) (by simp)
      have hrec : (joinLines (l' :: r)).getLast?.all p = true :=
        ih (fun x hx => h1 x (by simp [hx])) (fun x hx => h2 x (by simp [hx])) (by simp)
      show ((l ++ '\n' :: joinLines (l' :: r)).getLast?.all p) = true
      rw [List.getLast?_append, getLast?_cons_of_ne_nil _ _ hJ]
      cases hg : (joinLines (l' :: r)).getLast? with
      | none => exact absurd (List.getLast?_eq_none_iff.mp hg) hJ
      | some a =>
        rw [hg] at hrec
        simpa [Option.or] using hrec

theorem joinLines_no_fmSep (L : List (List Char))
    (h : ∀ l ∈ L, pyContains l fmSep = false) :
    pyContains (joinLines L) fmSep = false := by
  induction L with
  | nil => rfl
  | cons l L ih =>
    cases L with
    | nil => simpa [joinLines] using h l (by simp)
    | cons l' r =>
      show pyContains (l ++ '\n' :: joinLines (l' :: r)) fmSep = false
      exact contains_break l (joinLines (l' :: r)) '\n' (h l (by simp))
        (ih (fun x hx => h x (by simp [hx]))) (by decide)

theorem joinLines_cons_of_ne_nil (l : List Char) (L : List (List Char)) (h : L ≠ []) :
    joinLines (l :: L) = l ++ '\n' :: joinLines L := by
  cases L with
  | nil => exact absurd rfl h
  | cons a b => rfl

theorem joinLines_concat_append (L : List (List Char)) (x y : List Char) :
    joinLines (L ++ [x ++ y]) = joinLines (L ++ [x]) ++ y := by
  induction L with
  | nil => rfl
  | cons l L ih =>
    rw [List.cons_append, List.cons_append,
      joinLines_cons_of_ne_nil l (L ++ [x ++ y]) (by simp),
      joinLines_cons_of_ne_nil l (L ++ [x]) (by simp), ih]
    simp

theorem joinLines_getLast_concat (L : List (List Char)) (x : List Char)
    (hl : ∀ l ∈ L, l ≠ []) (hx : x ≠ []) :
    (joinLines (L ++ [x])).getLast? = x.getLast? := by
  induction L with
  | nil => rfl
  | cons l L ih =>
    rw [List.cons_append, joinLines_cons_of_ne_nil l (L ++ [x]) (by simp)]
    have hall : ∀ a ∈ L ++ [x], a ≠ [] := by
      intro a ha
      rcases List.mem_append.mp ha with h | h
      · exact hl a (by simp [h])
      · rw [List.mem_singleton] at h
        exact h ▸ hx
    have hJ : joinLines (L ++ [x]) ≠ [] := joinLines_ne_nil _ hall (by simp)
    rw [List.getLast?_append, getLast?_cons_of_ne_nil _ _ hJ,
      ih (fun a ha => hl a (by simp [ha]))]
    cases hg : x.getLast? with
    | none => exact absurd (List.getLast?_eq_none_iff.mp hg) hx
    | some g => rfl

theorem splitLines_joinLines (L : List (List Char))
    (h : ∀ l ∈ L, '\n' ∉ l) (hL : L ≠ []) : splitLines (joinLines L) = L := by
  induction L with
  | nil => exact absurd rfl hL
  | cons l L ih =>
    cases L with
    | nil => simpa [joinLines] using splitLines_no_nl l (h l (by simp))
    | cons l' r =>
      show splitLines (l ++ '\n' :: joinLines (l' :: r)) = l :: l' :: r
      rw [splitLines_append l _ (h l (by simp))]
      rw [ih (fun x hx => h x (by simp [hx])) (by simp)]

theorem fmEntryLine_ne_nil (e : List Char × List Char) : fmEntryLine e ≠ [] := by
  unfold fmEntryLine
  simp

theorem fmEntryLine_no_nl (e : List Char × List Char)
    (h1 : '\n' ∉ e.1) (h2 : '\n' ∉ e.2) : '\n' ∉ fmEntryLine e := by
  unfold fmEntryLine
  intro hmem
  rcases List.mem_append.mp hmem with hmm | hmm
  · exact h1 hmm
  · rcases List.mem_cons.mp hmm with he | hmm
    · exact absurd he (by decide)
    · rcases List.mem_cons.mp hmm with he | hmm
      · exact absurd he (by decide)
      · exact h2 hmm

theorem fmEntryLine_no_fmSep (e : List Char × List Char)
    (h1 : pyContains e.1 fmSep = false) (h2 : pyContains e.2 fmSep = false) :
    pyContains (fmEntryLine e) fmSep = false := by
  unfold fmEntryLine
  have hb : pyContains (' ' :: e.2) fmSep = false := by
    simpa using contains_break [] e.2 ' ' rfl h2 (by decide)
  exact contains_break e.1 (' ' :: e.2) ':' h1 hb (by decide)

theorem fmEntryLine_head_ok (e : List Char × List Char) (h : noWsEnds e.1) :
    (fmEntryLine e).head?.all (fun c => !isPyWs c) = true := by
  unfold fmEntryLine
  cases he : e.1 with
  | nil =>
    show ((([] : List Char) ++ ':' :: ' ' :: e.2).head?.all fun c => !isPyWs c) = true
    simp
    decide
  | cons c t =>
    have hh := h.1
    rw [he] at hh
    show (((c :: t) ++ ':' :: ' ' :: e.2).head?.all fun c => !isPyWs c) = true
    simpa using hh

theorem fmEntryLine_getLast_ok (e : List Char × List Char) (hne : e.2 ≠ [])
    (h : (e.2).getLast?.all (fun c => !isPyWs c) = true) :
    (fmEntryLine e).getLast?.all (fun c => !isPyWs c) = true := by
  unfold fmEntryLine
  rw [show e.1 ++ ':' :: ' ' :: e.2 = (e.1 ++ [':', ' ']) ++ e.2 by simp]
  rw [List.getLast?_append]
  cases hg : e.2.getLast? with
  | none => exact absurd (List.getLast?_eq_none_iff.mp hg) hne
  | some a =>
    rw [hg] at h
    simpa [Option.or] using h

theorem dictInsert_fresh (d : FrontMap) (k v : List Char) (h : k ∉ d.map Prod.fst) :
    dictInsert d k v = d ++ [(k, v)] := by
  induction d with
  | nil => rfl
  | cons e t ih =>
    obtain ⟨k0, v0⟩ := e
    simp only [List.map_cons, List.mem_cons, not_or] at h
    have hne : (k0 == k) = false := by
      rw [beq_eq_false_iff_ne]
      exact fun e2 => h.1 e2.symm
    show dictInsert ((k0, v0) :: t) k v = (k0, v0) :: t ++ [(k, v)]
    rw [dictInsert, if_neg (by simp [hne]), ih h.2]
    rfl

theorem foldl_fmLine (entries : FrontMap) : ∀ d : FrontMap,
    (∀ e ∈ entries, entryOk e) →
    (entries.map Prod.fst).Nodup →
    (∀ key ∈ entries.map Prod.fst, key ∉ d.map Prod.fst) →
    (entries.map fmEntryLine).foldl fmLine d = d ++ entries := by
  induction entries with
  | nil =>
    intro d _ _ _
    simp
  | cons e rest ih =>
    intro d hok hnd hfresh
    obtain ⟨k, v⟩ := e
    obtain ⟨h1, h2, h3, h4, h5, h6, h7, h8, h9⟩ := hok (k, v) (by simp)
    have hline : fmLine d (fmEntryLine (k, v)) = d ++ [(k, v)] := by
      show fmLine d (k ++ ':' :: ' ' :: v) = d ++ [(k, v)]
      unfold fmLine
      simp only [splitOnce_colon k (' ' :: v) h1]
      rw [show pyStrip k = k from stripBy_eq_self isPyWs k h6.1 h6.2]
      rw [show pyStrip (' ' :: v) = v from
        (stripBy_cons_of isPyWs ' ' v (by decide)).trans (stripBy_eq_self isPyWs v h7.1 h7.2)]
      rw [show stripQuotes v = v from stripBy_eq_self isQuoteCh v h8 h9]
      exact dictInsert_fresh d k v (hfresh k (by simp))
    rw [List.map_cons, List.foldl_cons, hline]
    have hnd0 := hnd
    rw [List.map_cons, List.nodup_cons] at hnd0
    have hfresh2 : ∀ key ∈ rest.map Prod.fst, key ∉ (d ++ [(k, v)]).map Prod.fst := by
      intro key hkey hmem
      rw [List.map_append, List.mem_append] at hmem
      rcases hmem with hk1 | hk2
      · exact hfresh key (by simp [hkey]) hk1
      · have hkk : key = k := by simpa using hk2
        exact hnd0.1 (hkk ▸ hkey)
    rw [ih (d ++ [(k, v)]) (fun x hx => hok x (by simp [hx])) hnd0.2 hfresh2]
    simp

theorem pySplit2_eq (sep s a b c d : List Char)
    (h1 : splitOnceAux sep s = some (a, b))
    (h2 : splitOnceAux sep b = some (c, d)) :
    pySplit2 sep s = [a, c, d] := by
  unfold pySplit2
  simp only [h1, h2]

theorem parse_frontmatter_eq (content fmBlock body : List Char)
    (hsw : pyStartsWith content fmSep = true)
    (hsplit : pySplit2 fmSep content = [[], fmBlock, body]) :
    parse_frontmatter content = ((splitLines (pyStrip fmBlock)).foldl fmLine [], body) := by
  unfold parse_frontmatter
  rw [if_pos hsw]
  simp only [hsplit]

/-! ### Claims -/

/-- Claim C4, counterexample: serializing the mapping `{"k": "a---b"}` as
`key: value` lines between delimiter markers and re-parsing does NOT yield
the original mapping, although the mapping has no embedded delimiter
line: the delimiter search is substring-based, so the `---` inside the
value terminates the frontmatter block early and the parsed value is
`"a"`, not `"a---b"`. -/
theorem C4_counterexample :
    parse_frontmatter (serializeFM [("k".data, "a---b".data)]) =
      ([("k".data, "a".data)], "b\n---\n".data) ∧
    ([("k".data, "a".data)] : FrontMap) ≠ [("k".data, "a---b".data)] := by
  constructor
  · decide
  · decide

/-- Claim C4 (amended): for every mapping with pairwise distinct keys in
which each entry satisfies `entryOk` (its key contains no `:`, neither
side contains a newline or the substring `---`, both sides are unchanged
by whitespace stripping, and the value is unchanged by quote stripping;
empty values are allowed), serializing as one `key: value` line per entry
between two delimiter marker lines and applying `parse_frontmatter`
yields exactly the original mapping (and the single newline after the
closing delimiter as body).  An empty last value exposes its serialized
`key: ` line's trailing space to the block-level strip, which turns the
line into `key:`; it still re-parses to the empty value. -/
theorem C4_theorem (entries : FrontMap)
    (hok : ∀ e ∈ entries, entryOk e)
    (hnd : (entries.map Prod.fst).Nodup) :
    parse_frontmatter (serializeFM entries) = (entries, ['\n']) := by
  rcases List.eq_nil_or_concat entries with rfl | ⟨init, eN, hE⟩
  · decide
  rw [List.concat_eq_append] at hE
  subst hE
  obtain ⟨kN, vN⟩ := eN
  have hLne : (init ++ [(kN, vN)]).map fmEntryLine ≠ [] := by simp
  have hlne : ∀ l ∈ (init ++ [(kN, vN)]).map fmEntryLine, l ≠ [] := by
    intro l hl
    obtain ⟨e, he, rfl⟩ := List.mem_map.mp hl
    exact fmEntryLine_ne_nil e
  have hnn : ∀ l ∈ (init ++ [(kN, vN)]).map fmEntryLine, '\n' ∉ l := by
    intro l hl
    obtain ⟨e, he, rfl⟩ := List.mem_map.mp hl
    obtain ⟨_, h2, h3, _⟩ := hok e he
    exact fmEntryLine_no_nl e h2 h3
  have hns : ∀ l ∈ (init ++ [(kN, vN)]).map fmEntryLine, pyContains l fmSep = false := by
    intro l hl
    obtain ⟨e, he, rfl⟩ := List.mem_map.mp hl
    obtain ⟨_, _, _, h4, h5, _⟩ := hok e he
    exact fmEntryLine_no_fmSep e h4 h5
  have hhd : ∀ l ∈ (init ++ [(kN, vN)]).map fmEntryLine,
      (l.head?.all fun c => !isPyWs c) = true := by
    intro l hl
    obtain ⟨e, he, rfl⟩ := List.mem_map.mp hl
    obtain ⟨_, _, _, _, _, h6, _⟩ := hok e he
    exact fmEntryLine_head_ok e h6
  have hinnerne : joinLines ((init ++ [(kN, vN)]).map fmEntryLine) ≠ [] :=
    joinLines_ne_nil _ hlne hLne
  have hinnerSep : pyContains (joinLines ((init ++ [(kN, vN)]).map fmEntryLine)) fmSep = false :=
    joinLines_no_fmSep _ hns
  have hmapEq : (init ++ [(kN, vN)]).map fmEntryLine =
      init.map fmEntryLine ++ [fmEntryLine (kN, vN)] := by simp
  have hinitne : ∀ l ∈ init.map fmEntryLine, l ≠ [] := by
    intro l hl
    obtain ⟨e, he, rfl⟩ := List.mem_map.mp hl
    exact fmEntryLine_ne_nil e
  obtain ⟨hkN1, hkN2, hkN3, hkN4, hkN5, hkN6, hkN7, hkN8, hkN9⟩ :=
    hok (kN, vN) (by simp)
  have hndSplit := hnd
  rw [List.map_append, List.nodup_append] at hndSplit
  have hkNfresh : kN ∉ init.map Prod.fst := by
    intro hmem
    exact hndSplit.2.2 hmem (by simp)
  have hshape : serializeFM (init ++ [(kN, vN)]) =
      fmSep ++ ('\n' :: ((joinLines ((init ++ [(kN, vN)]).map fmEntryLine)) ++
        ('\n' :: (fmSep ++ ['\n'])))) := by
    unfold serializeFM
    simp only [List.append_assoc, List.cons_append]
  have h2 : splitOnceAux fmSep
      (('\n' :: joinLines ((init ++ [(kN, vN)]).map fmEntryLine)) ++ '\n' :: (fmSep ++ ['\n'])) =
      some (('\n' :: joinLines ((init ++ [(kN, vN)]).map fmEntryLine)) ++ ['\n'], ['\n']) := by
    apply splitOnce_fmSep_after
    rw [pyContains_cons]
    have hsw : pyStartsWith
        ('\n' :: joinLines ((init ++ [(kN, vN)]).map fmEntryLine)) fmSep = false := by
      simp [pyStartsWith, fmSep]
    exact Bool.or_eq_false_iff.mpr ⟨hsw, hinnerSep⟩
  rw [List.cons_append, List.cons_append] at h2
  rw [hshape, parse_frontmatter_eq _ _ _ (startsWith_fmSep _)
    (pySplit2_eq _ _ _ _ _ _ (splitOnce_fmSep_self _) h2)]
  rcases eq_or_ne vN [] with rfl | hv
  · -- the last value is empty: the block strip removes the line's trailing space
    have hfe : fmEntryLine (kN, []) = (kN ++ [':']) ++ [' '] := by
      simp [fmEntryLine]
    have hJeq : joinLines ((init ++ [(kN, [])]).map fmEntryLine) =
        joinLines (init.map fmEntryLine ++ [kN ++ [':']]) ++ [' '] := by
      rw [hmapEq, hfe]
      exact joinLines_concat_append _ _ _
    have h0nn : ∀ l ∈ init.map fmEntryLine ++ [kN ++ [':']], '\n' ∉ l := by
      intro l hl
      rcases List.mem_append.mp hl with hl | hl
      · exact hnn l (by rw [hmapEq]; exact List.mem_append_left _ hl)
      · rw [List.mem_singleton] at hl
        subst hl
        intro hmem
        rcases List.mem_append.mp hmem with hmem | hmem
        · exact hkN2 hmem
        · rw [List.mem_singleton] at hmem
          exact absurd hmem (by decide)
    have h0ne : ∀ l ∈ init.map fmEntryLine ++ [kN ++ [':']], l ≠ [] := by
      intro l hl
      rcases List.mem_append.mp hl with hl | hl
      · exact hinitne l hl
      · rw [List.mem_singleton] at hl
        subst hl
        simp
    have hLne0 : init.map fmEntryLine ++ [kN ++ [':']] ≠ [] := by simp
    have hinner0ne : joinLines (init.map fmEntryLine ++ [kN ++ [':']]) ≠ [] :=
      joinLines_ne_nil _ h0ne hLne0
    have hcolhead : ((kN ++ [':']).head?.all fun c => !isPyWs c) = true := by
      cases hk : kN with
      | nil => decide
      | cons c t =>
        have := hkN6.1
        rw [hk] at this
        simpa using this
    have hhead0 : ((joinLines (init.map fmEntryLine ++ [kN ++ [':']])).head?.all
        fun c => !isPyWs c) = true := by
      apply joinLines_head_ok
      · intro l hl
        rcases List.mem_append.mp hl with hl | hl
        · exact hhd l (by rw [hmapEq]; exact List.mem_append_left _ hl)
        · rw [List.mem_singleton] at hl
          subst hl
          exact hcolhead
      · exact h0ne
      · exact hLne0
    have hlast0 : ((joinLines (init.map fmEntryLine ++ [kN ++ [':']])).getLast?.all
        fun c => !isPyWs c) = true := by
      rw [joinLines_getLast_concat _ _ hinitne (by simp)]
      rw [show (kN ++ [':']).getLast? = some ':' by rw [List.getLast?_append]; rfl]
      decide
    have hstrip : pyStrip ('\n' ::
        (joinLines (init.map fmEntryLine ++ [kN ++ [':']]) ++ [' ', '\n'])) =
        joinLines (init.map fmEntryLine ++ [kN ++ [':']]) :=
      stripBy_wrap isPyWs '\n' _ [' ', '\n'] (by decide) (by decide)
        hhead0 hlast0 hinner0ne
    rw [hJeq, List.append_assoc, List.singleton_append, hstrip]
    rw [splitLines_joinLines _ h0nn hLne0]
    rw [List.foldl_append]
    have hfoldInit : (init.map fmEntryLine).foldl fmLine [] = init := by
      have := foldl_fmLine init []
        (fun e he => hok e (by simp [he])) hndSplit.1 (by simp)
      simpa using this
    rw [hfoldInit]
    have hlastline : fmLine init (kN ++ [':']) = init ++ [(kN, [])] := by
      unfold fmLine
      simp only [splitOnce_colon kN [] hkN1]
      rw [show pyStrip kN = kN from stripBy_eq_self isPyWs kN hkN6.1 hkN6.2]
      rw [show stripQuotes (pyStrip []) = [] from rfl]
      exact dictInsert_fresh init kN [] hkNfresh
    simp only [List.foldl_cons, List.foldl_nil]
    rw [hlastline]
  · -- the last value is nonempty: the block strip leaves the lines unchanged
    have hlastfull : ((joinLines ((init ++ [(kN, vN)]).map fmEntryLine)).getLast?.all
        fun c => !isPyWs c) = true := by
      rw [hmapEq, joinLines_getLast_concat _ _ hinitne (fmEntryLine_ne_nil _)]
      exact fmEntryLine_getLast_ok (kN, vN) hv hkN7.2
    have hstrip : pyStrip ('\n' ::
        (joinLines ((init ++ [(kN, vN)]).map fmEntryLine) ++ ['\n'])) =
        joinLines ((init ++ [(kN, vN)]).map fmEntryLine) :=
      stripBy_wrap isPyWs '\n' _ ['\n'] (by decide) (by decide)
        (joinLines_head_ok _ _ hhd hlne hLne) hlastfull hinnerne
    rw [hstrip, splitLines_joinLines _ hnn hLne]
    rw [foldl_fmLine _ [] hok hnd (by simp)]
    simp

/-- Claim C4, witness instance of the amended round trip, including an
entry with an empty value. -/
theorem C4_witness :
    parse_frontmatter (serializeFM
      [("name".data, "my-skill".data), ("note".data, [])]) =
      ([("name".data, "my-skill".data), ("note".data, [])], ['\n']) :=
  C4_theorem _ (by decide) (by decide)

theorem dropWhile_append_of_ne_nil (p : Char → Bool) (l b : List Char)
    (h : l.dropWhile p ≠ []) : (l ++ b).dropWhile p = l.dropWhile p ++ b := by
  induction l with
  | nil => exact absurd rfl h
  | cons c t ih =>
    cases hc : p c with
    | true =>
      rw [List.dropWhile_cons, if_pos hc] at h
      rw [List.cons_append, List.dropWhile_cons, if_pos hc, ih h,
        List.dropWhile_cons, if_pos hc]
    | false =>
      rw [List.cons_append, List.dropWhile_cons, if_neg (by simp [hc]),
        List.dropWhile_cons, if_neg (by simp [hc])]
      rfl

/-- Claim C3, counterexample: the parser does not strip exactly one
matching layer of quotes.  A value with a single unmatched leading quote
(`\x27v`) loses the quote, and a value wrapped in two quote layers
(`\x27\x27v\x27\x27`) loses both layers, not one. -/
theorem C3_counterexample :
    (parse_frontmatter "---\nk: \x27v\n---\n".data).1 = [("k".data, "v".data)] ∧
    "v".data ≠ "\x27v".data ∧
    (parse_frontmatter "---\nk: \x27\x27v\x27\x27\n---\n".data).1 = [("k".data, "v".data)] ∧
    "v".data ≠ "\x27v\x27".data := by
  exact ⟨by decide, by decide, by decide, by decide⟩

/-- Claim C3 (amended): for every frontmatter line with a separator, the
parser strips, from the whitespace-stripped value only, ALL leading and
ALL trailing quote characters, matched or not (Python `strip('"\x27')`):
the line maps to the whitespace-stripped key and quote-stripped value
(first conjunct); quote stripping removes any leading run and any
trailing run of quote characters (second conjunct); and it leaves a value
without leading or trailing quote characters unchanged (third
conjunct). -/
theorem C3_theorem :
    (∀ (d : FrontMap) (k v : List Char), ':' ∉ k →
      fmLine d (k ++ ':' :: v) = dictInsert d (pyStrip k) (stripQuotes (pyStrip v))) ∧
    (∀ a l b : List Char, a.all isQuoteCh = true → b.all isQuoteCh = true →
      stripQuotes (a ++ l ++ b) = stripQuotes l) ∧
    (∀ l : List Char, (l.head?.all fun c => !isQuoteCh c) = true →
      (l.getLast?.all fun c => !isQuoteCh c) = true → stripQuotes l = l) := by
  refine ⟨?_, ?_, ?_⟩
  · intro d k v h
    unfold fmLine
    simp only [splitOnce_colon k v h]
  · intro a l b ha hb
    show stripBy isQuoteCh (a ++ l ++ b) = stripBy isQuoteCh l
    unfold stripBy
    by_cases h : l.dropWhile isQuoteCh = []
    · have h1 : (a ++ l ++ b).dropWhile isQuoteCh = [] := by
        apply List.dropWhile_eq_nil_iff.mpr
        intro x hx
        rcases List.mem_append.mp hx with hx2 | hx2
        · rcases List.mem_append.mp hx2 with hx3 | hx3
          · exact List.all_eq_true.mp ha x hx3
          · exact List.dropWhile_eq_nil_iff.mp h x hx3
        · exact List.all_eq_true.mp hb x hx2
      rw [h1, h]
    · rw [List.append_assoc, dropWhile_append_absorb _ a (l ++ b) ha,
        dropWhile_append_of_ne_nil _ l b h, List.reverse_append,
        dropWhile_append_absorb _ b.reverse _ (by simpa using hb)]
  · intro l h1 h2
    exact stripBy_eq_self isQuoteCh l h1 h2

/-- Claim C3, witness instance of the amended statement. -/
theorem C3_witness :
    fmLine [] ("key".data ++ ':' :: " \x27\x27val\x27\x27".data) =
      [("key".data, "val".data)] :=
  (C3_theorem.1 [] "key".data " \x27\x27val\x27\x27".data (by decide)).trans (by decide)

/-- Claim C7: the line split is on the FIRST separator occurrence only
(first conjunct, for every key without a separator and every value), so
`description: a: b` parses to key `description` with value `a: b` (second
conjunct). -/
theorem C7_theorem :
    (∀ k v : List Char, ':' ∉ k → splitOnceAux colonSep (k ++ ':' :: v) = some (k, v)) ∧
    (parse_frontmatter "---\ndescription: a: b\n---\n".data).1 =
      [("description".data, "a: b".data)] :=
  ⟨fun k v h => splitOnce_colon k v h, by decide⟩

/-- Claim C7, witness instance of the first-occurrence split. -/
theorem C7_witness :
    splitOnceAux colonSep ("ab".data ++ ':' :: "c: d".data) =
      some ("ab".data, "c: d".data) :=
  C7_theorem.1 _ _ (by decide)

/-- Claim C10: the delimiter match is substring-based.  For every document
`--- ++ rest`, whenever `---` occurs again anywhere in `rest` (the first
occurrence splitting `rest` into `a` and `b`, possibly mid-line), the
frontmatter block is exactly `a` and the returned body is exactly `b`,
everything after that occurrence. -/
theorem C10_theorem (rest a b : List Char)
    (h : splitOnceAux fmSep rest = some (a, b)) :
    parse_frontmatter (fmSep ++ rest) = ((splitLines (pyStrip a)).foldl fmLine [], b) :=
  parse_frontmatter_eq _ _ _ (startsWith_fmSep rest)
    (pySplit2_eq _ _ _ _ _ _ (splitOnce_fmSep_self rest) h)

/-- Claim C10, witness: a `---` in the middle of a value line ends the
block there, and everything after it (including later lines) is body. -/
theorem C10_witness :
    parse_frontmatter (fmSep ++ "\ndescription: a---b\nkey: v".data) =
      ([("description".data, "a".data)], "b\nkey: v".data) :=
  ( C10_theorem "\ndescription: a---b\nkey: v".data "\ndescription: a".data
    "b\nkey: v".data (by decide)).trans (by decide)

/-- Claim C6: when no manifest content exists, `validate_skill` returns
exactly the single-element not-found list, whatever the subdirectories
hold; when the manifest exists, the result is the full concatenation of
every check group, so no other rule short-circuits. -/
theorem C6_theorem (d : SkillDir) :
    (d.skillMd = none → validate_skill d = [notFoundMsg]) ∧
    (∀ content, d.skillMd = some content →
      validate_skill d =
        nameChecks (parse_frontmatter content).1 ++
        descChecks (parse_frontmatter content).1 ++
        bodyChecks (parse_frontmatter content).2 ++
        sectionChecks (parse_frontmatter content).2 ++
        subdirChecks "scripts".data d.scripts ++
        subdirChecks "references".data d.references ++
        subdirChecks "assets".data d.assets) := by
  constructor
  · intro h
    unfold validate_skill
    rw [h]
  · intro content h
    unfold validate_skill
    rw [h]
    rfl

/-- Claim C6, witness at a concrete directory without a manifest. -/
theorem C6_witness :
    validate_skill ⟨none, some [⟨"x.py".data, true, "TODO".data⟩], none, none⟩ =
      [notFoundMsg] :=
  (C6_theorem _).1 rfl

/-- Claim C2, counterexample: the name `caf\xE9` contains `\xE9`
(`U+00E9`), a character outside the class `[A-Za-z0-9_-]`, yet
`create_skill` succeeds and creates the skill tree: Python `str.isalnum`
also accepts non-ASCII alphanumerics, so the name check passes. -/
theorem C2_counterexample :
    ('\xE9' ∈ "caf\xE9".data ∧ allowedChar '\xE9' = false) ∧
    (create_skill "caf\xE9".data [] emptyFS).2 = none ∧
    (create_skill "caf\xE9".data [] emptyFS).1 ≠ emptyFS := by
  exact ⟨by decide, by decide, by decide⟩

/-- Claim C2 (amended): a skill name containing any Latin-1 character
that is not a Python alphanumeric and not `-` or `_` makes `create_skill`
fail with the invalid-name error and return the filesystem unchanged (no
directory or file created; in the source both checks precede every
`mkdir`/`write_text`).  The Latin-1 bound keeps the quantified character
inside the faithful scope of `pyIsAlnumChar`; the original claim's class
`[A-Za-z0-9_-]` is too narrow a test because Python `str.isalnum` also
accepts non-ASCII alphanumerics such as `\xE9` (see
`C2_counterexample`). -/
theorem C2_theorem (skill_name : List Char) (out : FsPath) (fs : FS) (c : Char)
    (hmem : c ∈ skill_name) (hlatin : c.toNat < 256)
    (hal : pyIsAlnumChar c = false)
    (hdash : (c == '-') = false) (hund : (c == '_') = false) :
    create_skill skill_name out fs = (fs, some (invalidSkillMsg skill_name)) := by
  have hmem2 : c ∈ stripDashUnderscore skill_name := by
    unfold stripDashUnderscore
    rw [List.mem_filter]
    refine ⟨List.mem_filter.mpr ⟨hmem, ?_⟩, ?_⟩
    · simp [bne, hdash]
    · simp [bne, hund]
  have hall : (stripDashUnderscore skill_name).all pyIsAlnumChar = false := by
    by_contra hcon
    rw [Bool.not_eq_false] at hcon
    have := List.all_eq_true.mp hcon c hmem2
    rw [hal] at this
    exact Bool.false_ne_true this
  have halnum : pyIsAlnum (stripDashUnderscore skill_name) = false := by
    unfold pyIsAlnum
    rw [hall, Bool.and_false]
  unfold create_skill
  rw [halnum]
  simp

/-- Claim C2, witness: a name containing a space fails the scaffold and
leaves the filesystem unchanged. -/
theorem C2_witness :
    create_skill "my skill".data [] emptyFS =
      (emptyFS, some (invalidSkillMsg "my skill".data)) :=
  C2_theorem _ _ _ ' ' (by decide) (by decide) (by decide) (by decide) (by decide)

theorem contains_append_cons_self (l r : List FsPath) (p : FsPath) :
    (l ++ p :: r).contains p = true := by
  induction l with
  | nil => simp [List.contains_cons]
  | cons x t ih => simp [List.contains_cons, ih]

/-- Claim C8: if the resolved skill directory already exists (as a
directory or a file), `create_skill` leaves the filesystem untouched and
fails, with the already-exists error whenever the name check passes
(first conjunct); and after a successful invocation, repeating it with
the same name and path leaves the first invocation's result untouched and
fails with the already-exists error (second conjunct). -/
theorem C8_theorem :
    (∀ (skill_name : List Char) (out : FsPath) (fs : FS),
      fsExists fs (out ++ [skill_name]) = true →
      (create_skill skill_name out fs).1 = fs ∧
      (create_skill skill_name out fs).2 ≠ none ∧
      (pyIsAlnum (stripDashUnderscore skill_name) = true →
        create_skill skill_name out fs =
          (fs, some (alreadyExistsMsg (out ++ [skill_name]))))) ∧
    (∀ (skill_name : List Char) (out : FsPath) (fs fs2 : FS),
      create_skill skill_name out fs = (fs2, none) →
      create_skill skill_name out fs2 =
        (fs2, some (alreadyExistsMsg (out ++ [skill_name])))) := by
  constructor
  · intro skill_name out fs hex
    cases hv : pyIsAlnum (stripDashUnderscore skill_name) with
    | true =>
      have hcreate : create_skill skill_name out fs =
          (fs, some (alreadyExistsMsg (out ++ [skill_name]))) := by
        unfold create_skill
        rw [hv]
        simp [hex]
      exact ⟨by rw [hcreate], by rw [hcreate]; simp, fun _ => hcreate⟩
    | false =>
      have hcreate : create_skill skill_name out fs =
          (fs, some (invalidSkillMsg skill_name)) := by
        unfold create_skill
        rw [hv]
        simp
      exact ⟨by rw [hcreate], by rw [hcreate]; simp, fun hvt => absurd hvt (by simp [hv])⟩
  · intro skill_name out fs fs2 hcr
    cases hv : pyIsAlnum (stripDashUnderscore skill_name) with
    | false =>
      rw [show create_skill skill_name out fs = (fs, some (invalidSkillMsg skill_name)) by
        unfold create_skill; rw [hv]; simp] at hcr
      exact absurd (congrArg Prod.snd hcr) (by simp)
    | true =>
      cases hex : fsExists fs (out ++ [skill_name]) with
      | true =>
        rw [show create_skill skill_name out fs =
            (fs, some (alreadyExistsMsg (out ++ [skill_name]))) by
          unfold create_skill; rw [hv]; simp [hex]] at hcr
        exact absurd (congrArg Prod.snd hcr) (by simp)
      | false =>
        unfold create_skill at hcr
        rw [hv] at hcr
        simp only [Bool.not_true, Bool.false_eq_true, if_false, hex, if_neg] at hcr
        rw [Prod.mk.injEq] at hcr
        obtain ⟨hfs2, -⟩ := hcr
        subst hfs2
        unfold create_skill
        rw [hv]
        simp [fsExists, contains_append_cons_self]

/-- Claim C8, witness: creating `sk` where a directory `sk` already
exists fails with the already-exists error and changes nothing. -/
theorem C8_witness :
    create_skill "sk".data [] ⟨[["sk".data]], []⟩ =
      (⟨[["sk".data]], []⟩, some (alreadyExistsMsg ["sk".data])) :=
  (C8_theorem.1 "sk".data [] ⟨[["sk".data]], []⟩ (by decide)).2.2 (by decide)

/-- Claim C1, counterexample: scaffolding `my-skill` succeeds, and
validating the fresh directory produces NONE of the three
missing-recommended-section errors — the template body contains each
label (`When to Use This Skill`, `Workflow`, `Examples`), so the
case-insensitive substring search finds all three. -/
theorem C1_counterexample :
    mySkillCreate.2 = none ∧
    missingSectionMsg "When to Use".data ∉ validate_skill mySkillDir ∧
    missingSectionMsg "Workflow".data ∉ validate_skill mySkillDir ∧
    missingSectionMsg "Example".data ∉ validate_skill mySkillDir := by
  exact ⟨by decide, by decide, by decide, by decide⟩

/-- Claim C1 (amended): scaffolding `my-skill` and validating the result
yields exactly the four errors description-contains-TODO,
body-contains-TODO, and one TODO-leak error for each generated example
file — in particular no missing-recommended-section error, since the
case-insensitive search finds all three labels in the template body. -/
theorem C1_theorem :
    mySkillCreate.2 = none ∧
    validate_skill mySkillDir =
      [descTodoMsg, bodyTodoMsg,
       fileTodoMsg "scripts".data "example.py".data,
       fileTodoMsg "references".data "example.md".data] := by
  exact ⟨by decide, by decide⟩

theorem ne_of_getElem? {l m : List Char} {i : Nat} {a b : Char}
    (hl : l[i]? = some a) (hm : m[i]? = some b) (hab : a ≠ b) : l ≠ m := by
  intro e
  rw [e, hm] at hl
  exact hab (Option.some.inj hl).symm

theorem descShortMsg_head (n : Nat) : (descShortMsg n)[0]? = some 'D' := rfl

theorem descShortMsg_12 (n : Nat) : (descShortMsg n)[12]? = some 't' := rfl

theorem invalidNameMsg_head (m : List Char) : (invalidNameMsg m)[0]? = some 'I' := rfl

theorem missingSectionMsg_head (s : List Char) : (missingSectionMsg s)[0]? = some 'M' := rfl

theorem fileTodoMsg_head (sub f : List Char) : (fileTodoMsg sub f)[0]? = some 'F' := rfl

theorem missingNameMsg_head : missingNameMsg[0]? = some 'M' := rfl

theorem missingDescMsg_head : missingDescMsg[0]? = some 'M' := rfl

theorem descTodoMsg_12 : descTodoMsg[12]? = some 'c' := rfl

theorem descTriggerMsg_12 : descTriggerMsg[12]? = some 's' := rfl

theorem descTodoMsg_head : descTodoMsg[0]? = some 'D' := rfl

theorem descTriggerMsg_head : descTriggerMsg[0]? = some 'D' := rfl

theorem bodyShortMsg_head : bodyShortMsg[0]? = some 'S' := rfl

theorem bodyTodoMsg_head : bodyTodoMsg[0]? = some 'S' := rfl

theorem notFoundMsg_head : notFoundMsg[0]? = some 'S' := rfl

theorem fileTodoMsg_scripts_5 (f : List Char) :
    (fileTodoMsg "scripts".data f)[5]? = some 's' := rfl

theorem fileTodoMsg_references_5 (f : List Char) :
    (fileTodoMsg "references".data f)[5]? = some 'r' := rfl

theorem fileTodoMsg_assets_5 (f : List Char) :
    (fileTodoMsg "assets".data f)[5]? = some 'a' := rfl

theorem fileTodoMsg_inj (sub f g : List Char)
    (h : fileTodoMsg sub f = fileTodoMsg sub g) : f = g := by
  unfold fileTodoMsg at h
  have h1 : '/' :: (f ++ " contains TODO placeholders".data) =
      '/' :: (g ++ " contains TODO placeholders".data) := List.append_cancel_left h
  injection h1 with _ h2
  exact List.append_cancel_right h2

theorem mem_if_singleton {c : Prop} [Decidable c] {x e : List Char}
    (h : e ∈ (if c then [x] else [])) : e = x := by
  by_cases hc : c
  · rw [if_pos hc] at h
    simpa using h
  · rw [if_neg hc] at h
    exact absurd h (List.not_mem_nil e)

theorem mem_if_nil {c : Prop} [Decidable c] {x e : List Char}
    (h : e ∈ (if c then [] else [x])) : e = x := by
  by_cases hc : c
  · rw [if_pos hc] at h
    exact absurd h (List.not_mem_nil e)
  · rw [if_neg hc] at h
    simpa using h

theorem mem_nameChecks (fm : FrontMap) (e : List Char) (h : e ∈ nameChecks fm) :
    e = missingNameMsg ∨ ∃ n, e = invalidNameMsg n := by
  unfold nameChecks at h
  cases hf : dictFind fm "name".data with
  | none =>
    simp only [hf] at h
    left
    simpa using h
  | some n =>
    simp only [hf] at h
    right
    exact ⟨n, mem_if_nil h⟩

theorem mem_descChecks (fm : FrontMap) (e : List Char) (h : e ∈ descChecks fm) :
    e = missingDescMsg ∨ (∃ n, e = descShortMsg n) ∨ e = descTodoMsg ∨ e = descTriggerMsg := by
  unfold descChecks at h
  cases hf : dictFind fm "description".data with
  | none =>
    simp only [hf] at h
    left
    simpa using h
  | some desc =>
    simp only [hf] at h
    rcases List.mem_append.mp h with h12 | h3
    · rcases List.mem_append.mp h12 with h1 | h2
      · exact Or.inr (Or.inl ⟨desc.length, mem_if_singleton h1⟩)
      · exact Or.inr (Or.inr (Or.inl (mem_if_singleton h2)))
    · exact Or.inr (Or.inr (Or.inr (mem_if_nil h3)))

theorem mem_descChecks_50 (fm : FrontMap) (desc e : List Char)
    (hf : dictFind fm "description".data = some desc) (hlen : desc.length = 50)
    (h : e ∈ descChecks fm) : e = descTodoMsg ∨ e = descTriggerMsg := by
  unfold descChecks at h
  simp only [hf] at h
  rw [if_neg (by omega)] at h
  rw [List.nil_append] at h
  rcases List.mem_append.mp h with h1 | h2
  · exact Or.inl (mem_if_singleton h1)
  · exact Or.inr (mem_if_nil h2)

theorem mem_bodyChecks (body e : List Char) (h : e ∈ bodyChecks body) :
    e = bodyShortMsg ∨ e = bodyTodoMsg := by
  unfold bodyChecks at h
  rcases List.mem_append.mp h with h1 | h2
  · exact Or.inl (mem_if_singleton h1)
  · exact Or.inr (mem_if_singleton h2)

theorem mem_sectionChecks (body e : List Char) (h : e ∈ sectionChecks body) :
    ∃ s, e = missingSectionMsg s := by
  unfold sectionChecks at h
  rw [List.mem_flatten] at h
  obtain ⟨l, hl, hel⟩ := h
  rw [List.mem_map] at hl
  obtain ⟨s, hs, rfl⟩ := hl
  exact ⟨s, mem_if_nil hel⟩

theorem mem_subdirChecks (sub : List Char) (o : Option (List FsEntry)) (e : List Char)
    (h : e ∈ subdirChecks sub o) :
    ∃ n : List Char, n ≠ ".gitkeep".data ∧ e = fileTodoMsg sub n := by
  cases o with
  | none => exact absurd h (List.not_mem_nil e)
  | some fs =>
    unfold subdirChecks at h
    rw [List.mem_flatten] at h
    obtain ⟨l, hl, hel⟩ := h
    rw [List.mem_map] at hl
    obtain ⟨f, hf, rfl⟩ := hl
    unfold entryCheck at hel
    by_cases hcond : f.name ≠ ".gitkeep".data ∧ f.isFile = true
    · rw [if_pos hcond] at hel
      exact ⟨f.name, hcond.1, mem_if_singleton hel⟩
    · rw [if_neg hcond] at hel
      exact absurd hel (List.not_mem_nil _)

/-- Claim C5: when the parsed frontmatter `description` has length exactly
49, `validate_skill` reports the too-short error stating length 49; when
it has length exactly 50, no too-short error (for any stated length)
appears in the output — the boundary is strictly `len(desc) < 50`. -/
theorem C5_theorem (d : SkillDir) (content desc : List Char)
    (hmd : d.skillMd = some content)
    (hdesc : dictFind (parse_frontmatter content).1 "description".data = some desc) :
    (desc.length = 49 → descShortMsg 49 ∈ validate_skill d) ∧
    (desc.length = 50 → ∀ n : Nat, descShortMsg n ∉ validate_skill d) := by
  have hval : validate_skill d = manifestChecks d content := by
    unfold validate_skill
    simp only [hmd]
  constructor
  · intro h49
    rw [hval]
    unfold manifestChecks
    apply List.mem_append_left
    apply List.mem_append_left
    apply List.mem_append_left
    apply List.mem_append_left
    apply List.mem_append_left
    apply List.mem_append_right
    unfold descChecks
    simp only [hdesc]
    rw [h49, if_pos (by omega)]
    exact List.mem_append_left _ (List.mem_append_left _ (List.mem_cons_self _ _))
  · intro h50 n hmem
    rw [hval] at hmem
    unfold manifestChecks at hmem
    rcases List.mem_append.mp hmem with h1 | hAs
    · rcases List.mem_append.mp h1 with h2 | hRe
      · rcases List.mem_append.mp h2 with h3 | hSc
        · rcases List.mem_append.mp h3 with h4 | hSec
          · rcases List.mem_append.mp h4 with h5 | hBody
            · rcases List.mem_append.mp h5 with hName | hDesc
              · rcases mem_nameChecks _ _ hName with he | ⟨m, he⟩
                · exact absurd he
                    (ne_of_getElem? (descShortMsg_head n) missingNameMsg_head (by decide))
                · exact absurd he
                    (ne_of_getElem? (descShortMsg_head n) (invalidNameMsg_head m) (by decide))
              · rcases mem_descChecks_50 _ _ _ hdesc h50 hDesc with he | he
                · exact absurd he
                    (ne_of_getElem? (descShortMsg_12 n) descTodoMsg_12 (by decide))
                · exact absurd he
                    (ne_of_getElem? (descShortMsg_12 n) descTriggerMsg_12 (by decide))
            · rcases mem_bodyChecks _ _ hBody with he | he
              · exact absurd he
                  (ne_of_getElem? (descShortMsg_head n) bodyShortMsg_head (by decide))
              · exact absurd he
                  (ne_of_getElem? (descShortMsg_head n) bodyTodoMsg_head (by decide))
          · obtain ⟨s, he⟩ := mem_sectionChecks _ _ hSec
            exact absurd he
              (ne_of_getElem? (descShortMsg_head n) (missingSectionMsg_head s) (by decide))
        · obtain ⟨m, _, he⟩ := mem_subdirChecks _ _ _ hSc
          exact absurd he
            (ne_of_getElem? (descShortMsg_head n) (fileTodoMsg_head _ m) (by decide))
      · obtain ⟨m, _, he⟩ := mem_subdirChecks _ _ _ hRe
        exact absurd he
          (ne_of_getElem? (descShortMsg_head n) (fileTodoMsg_head _ m) (by decide))
    · obtain ⟨m, _, he⟩ := mem_subdirChecks _ _ _ hAs
      exact absurd he
        (ne_of_getElem? (descShortMsg_head n) (fileTodoMsg_head _ m) (by decide))

/-- Claim C5, witness: a 49-character description triggers the too-short
error stating 49. -/
theorem C5_witness :
    descShortMsg 49 ∈ validate_skill
      ⟨some "---\ndescription: 0123456789012345678901234567890123456789012345678\n---\n".data,
       none, none, none⟩ :=
  (C5_theorem
    ⟨some "---\ndescription: 0123456789012345678901234567890123456789012345678\n---\n".data,
     none, none, none⟩
    "---\ndescription: 0123456789012345678901234567890123456789012345678\n---\n".data
    "0123456789012345678901234567890123456789012345678".data
    rfl (by decide)).1 (by decide)

/-- Claim C9: a file named `.gitkeep` inside any of the three scanned
subdirectories never produces a placeholder-leakage error, whatever its
content: the message `File <sub>/.gitkeep contains TODO placeholders`
never appears in the validator's output, for any skill directory — the
exemption is by file name alone. -/
theorem C9_theorem (d : SkillDir) (sub : List Char)
    (hsub : sub = "scripts".data ∨ sub = "references".data ∨ sub = "assets".data) :
    fileTodoMsg sub ".gitkeep".data ∉ validate_skill d := by
  intro hmem
  cases hmd : d.skillMd with
  | none =>
    unfold validate_skill at hmem
    simp only [hmd] at hmem
    rw [List.mem_singleton] at hmem
    exact absurd hmem (ne_of_getElem? (fileTodoMsg_head sub _) notFoundMsg_head (by decide))
  | some content =>
    unfold validate_skill at hmem
    simp only [hmd] at hmem
    unfold manifestChecks at hmem
    rcases List.mem_append.mp hmem with h1 | hAs
    · rcases List.mem_append.mp h1 with h2 | hRe
      · rcases List.mem_append.mp h2 with h3 | hSc
        · rcases List.mem_append.mp h3 with h4 | hSec
          · rcases List.mem_append.mp h4 with h5 | hBody
            · rcases List.mem_append.mp h5 with hName | hDesc
              · rcases mem_nameChecks _ _ hName with he | ⟨m, he⟩
                · exact absurd he
                    (ne_of_getElem? (fileTodoMsg_head sub _) missingNameMsg_head (by decide))
                · exact absurd he
                    (ne_of_getElem? (fileTodoMsg_head sub _) (invalidNameMsg_head m) (by decide))
              · rcases mem_descChecks _ _ hDesc with he | ⟨m, he⟩ | he | he
                · exact absurd he
                    (ne_of_getElem? (fileTodoMsg_head sub _) missingDescMsg_head (by decide))
                · exact absurd he
                    (ne_of_getElem? (fileTodoMsg_head sub _) (descShortMsg_head m) (by decide))
                · exact absurd he
                    (ne_of_getElem? (fileTodoMsg_head sub _) descTodoMsg_head (by decide))
                · exact absurd he
                    (ne_of_getElem? (fileTodoMsg_head sub _) descTriggerMsg_head (by decide))
            · rcases mem_bodyChecks _ _ hBody with he | he
              · exact absurd he
                  (ne_of_getElem? (fileTodoMsg_head sub _) bodyShortMsg_head (by decide))
              · exact absurd he
                  (ne_of_getElem? (fileTodoMsg_head sub _) bodyTodoMsg_head (by decide))
          · obtain ⟨s, he⟩ := mem_sectionChecks _ _ hSec
            exact absurd he
              (ne_of_getElem? (fileTodoMsg_head sub _) (missingSectionMsg_head s) (by decide))
        · obtain ⟨m, hne, he⟩ := mem_subdirChecks _ _ _ hSc
          rcases hsub with rfl | rfl | rfl
          · exact hne (fileTodoMsg_inj _ _ _ he).symm
          · exact absurd he (ne_of_getElem? (fileTodoMsg_references_5 _)
              (fileTodoMsg_scripts_5 m) (by decide))
          · exact absurd he (ne_of_getElem? (fileTodoMsg_assets_5 _)
              (fileTodoMsg_scripts_5 m) (by decide))
      · obtain ⟨m, hne, he⟩ := mem_subdirChecks _ _ _ hRe
        rcases hsub with rfl | rfl | rfl
        · exact absurd he (ne_of_getElem? (fileTodoMsg_scripts_5 _)
            (fileTodoMsg_references_5 m) (by decide))
        · exact hne (fileTodoMsg_inj _ _ _ he).symm
        · exact absurd he (ne_of_getElem? (fileTodoMsg_assets_5 _)
            (fileTodoMsg_references_5 m) (by decide))
    · obtain ⟨m, hne, he⟩ := mem_subdirChecks _ _ _ hAs
      rcases hsub with rfl | rfl | rfl
      · exact absurd he (ne_of_getElem? (fileTodoMsg_scripts_5 _)
          (fileTodoMsg_assets_5 m) (by decide))
      · exact absurd he (ne_of_getElem? (fileTodoMsg_references_5 _)
          (fileTodoMsg_assets_5 m) (by decide))
      · exact hne (fileTodoMsg_inj _ _ _ he).symm

/-- Claim C9, witness: a `.gitkeep` in `assets` whose content contains
`TODO` still produces no leakage error for it. -/
theorem C9_witness :
    fileTodoMsg "assets".data ".gitkeep".data ∉ validate_skill
      ⟨some "x".data, none, none, some [⟨".gitkeep".data, true, "TODO".data⟩]⟩ :=
  C9_theorem _ _ (Or.inr (Or.inr rfl))
